import Mathlib

/-!
Verification of the process-isolation and supervision layer in
`euca2ools/bundle/util.py`: the descriptor fence (`close_all_fds`), the
certificate-fingerprint parsing (`get_cert_fingerprint`), the worker wrapper
(`process_wrapper`) and the asynchronous reaper (`waitpid_in_thread`,
`pid_exists`, `check_and_waitpid`).  Each Python function is embedded as a pure
Lean function; interactions with the operating system (`os.kill`, `os.waitpid`)
are modelled by an explicit environment recording the outcome of each call.
-/

namespace EucaBundleUtil

/-- Possible values in the `except_fds` argument of `close_all_fds`: Python
`None`, a plain `int`, an object whose `fileno()` method returns the given
descriptor number, or any other object (identified by its `repr` string) which
is neither an int nor has a `fileno` attribute. -/
inductive FdLike where
  | pyNone : FdLike
  | pyInt : Int → FdLike
  | withFileno : Int → FdLike
  | noFileno : String → FdLike
  deriving DecidableEq

/-- One step of the normalization loop in `close_all_fds`: `None` entries are
skipped (`pass`), ints and objects with `fileno` contribute their descriptor
number (appended to `except_filenos`), and anything else raises `ValueError`,
which aborts the whole call (modelled by the error absorbing all later steps). -/
def addExceptFd (acc : Except String (List Int)) (fd : FdLike) :
    Except String (List Int) :=
  match acc with
  | .error msg => .error msg
  | .ok l =>
    match fd with
    | .pyNone => .ok l
    | .pyInt n => .ok (l ++ [n])
    | .withFileno n => .ok (l ++ [n])
    | .noFileno r => .error (r ++ " must be an int or have a fileno method")

/-- Normalization phase of `close_all_fds`: `except_filenos` starts as `[1, 2]`
and each element of `except_fds` (when one was given) is processed in order. -/
def exceptFilenos (except_fds : Option (List FdLike)) : Except String (List Int) :=
  match except_fds with
  | Option.none => .ok [1, 2]
  | Option.some fds => fds.foldl addExceptFd (.ok [1, 2])

/-- Loop of `close_all_fds` that walks the sorted preserved descriptors
collecting `fileno_ranges`; returns the accumulated range list and the final
value of `next_range_min`. -/
def rangeLoop : List Int → Int → List (Int × Int) → List (Int × Int) × Int
  | [], next_range_min, acc => (acc, next_range_min)
  | e :: rest, next_range_min, acc =>
    rangeLoop rest (max next_range_min (e + 1))
      (if e > next_range_min then acc ++ [(next_range_min, e - 1)] else acc)

/-- Range list computed by `close_all_fds` from the normalized preserved
descriptors: walk `sorted(except_filenos)` starting from `next_range_min = 0`,
then append the final `(next_range_min, 1024)`.  `sorted` is Python's sort,
embedded as insertion sort (any ascending sort of a list of ints yields the
same list). -/
def fileno_ranges (except_filenos : List Int) : List (Int × Int) :=
  let p := rangeLoop (List.insertionSort (· ≤ ·) except_filenos) 0 []
  p.1 ++ [(p.2, 1024)]

/-- Descriptor fence `close_all_fds(except_fds)`: normalize the preserved set,
then compute the range list handed to `os.closerange`.  A `ValueError` raised
during normalization aborts the call before any range is computed and before
any descriptor is closed. -/
def close_all_fds (except_fds : Option (List FdLike)) :
    Except String (List (Int × Int)) :=
  match exceptFilenos except_fds with
  | .error msg => .error msg
  | .ok l => .ok (fileno_ranges l)

/-- Whether a descriptor is actually closed when the computed ranges are handed
to `os.closerange(lo, hi)`, which closes every descriptor with
`lo ≤ fd < hi` — its upper bound is exclusive, per the documented semantics of
the `os` module. -/
def closedByFence (ranges : List (Int × Int)) (fd : Int) : Bool :=
  ranges.any fun r => decide (r.1 ≤ fd) && decide (fd < r.2)

/-- Membership of a descriptor in the range list read as closed intervals
`[lo, hi]` — the reading under which the loop builds the tuples (it stores
`except_fileno - 1` as the top of each gap). -/
def inRanges (ranges : List (Int × Int)) (fd : Int) : Prop :=
  ∃ r ∈ ranges, r.1 ≤ fd ∧ fd ≤ r.2

/-- ASCII whitespace as stripped by Python 2 `str.strip()`. -/
def isPySpace (c : Char) : Bool :=
  c = ' ' || c = '\t' || c = '\n' || c = '\x0b' || c = '\x0c' || c = '\r'

/-- Python `str.strip()`: drop ASCII whitespace from both ends of the string. -/
def stripChars (l : List Char) : List Char :=
  ((l.reverse.dropWhile isPySpace).reverse).dropWhile isPySpace

/-- Python `s.rsplit('=', 1)[-1]`: the text after the last `'='`, or the whole
string when it contains no `'='`. -/
def afterLastEq (l : List Char) : List Char :=
  (l.reverse.takeWhile (fun c => c ≠ '=')).reverse

/-- Parsing pipeline of `get_cert_fingerprint`, applied to the captured
`openssl` output: `fingerprint.strip().rsplit('=', 1)[-1].replace(':', '').lower()`. -/
def parseFingerprint (out : List Char) : List Char :=
  ((afterLastEq (stripChars out)).filter (fun c => c ≠ ':')).map Char.toLower

/-- String-level wrapper of the fingerprint parsing step of
`get_cert_fingerprint` (the subprocess invocation itself is an external
collaborator; only its output string enters the computation). -/
def get_cert_fingerprint (out : String) : String :=
  String.mk (parseFingerprint out.data)

/-- Outcome of invoking the wrapped callable `func(**kwargs)` inside the worker
child: normal return, `KeyboardInterrupt`, or any other `Exception` carrying
the text `str(e)`. -/
inductive RunResult where
  | ok : RunResult
  | keyboardInterrupt : RunResult
  | exc : String → RunResult
  deriving DecidableEq

/-- How control leaves `process_wrapper`: `osExit code` is a call to
`os._exit(code)`, which terminates the child immediately with that status;
`ret` is a plain `return` statement, which hands control back to the
`multiprocessing` machinery that invoked the target. -/
inductive WrapperExit where
  | osExit : Nat → WrapperExit
  | ret : WrapperExit
  deriving DecidableEq

/-- Observable effect of `process_wrapper`: the lines it writes to the child's
stderr, and the way control leaves the wrapper. -/
structure WrapperEffect where
  stderr : List String
  exit : WrapperExit
  deriving DecidableEq

/-- Value of `os.EX_OK`. -/
def EX_OK : Nat := 0

/-- Embedding of `process_wrapper(func, **kwargs)`.  `name` is `func.__name__`
when the attribute exists (`getattr(func, '__name__', 'unknown')`).  On an
`Exception` the wrapper prints the traceback and the diagnostic line to stderr
and then executes a plain `return`; only normal completion and
`KeyboardInterrupt` (whose handler is `pass`) reach `os._exit(os.EX_OK)`. -/
def process_wrapper (name : Option String) (run : RunResult) : WrapperEffect :=
  match run with
  | .ok => ⟨[], .osExit EX_OK⟩
  | .keyboardInterrupt => ⟨[], .osExit EX_OK⟩
  | .exc e =>
    ⟨["Traceback (most recent call last): " ++ e,
      "Error in wrapped process \"" ++ (name.getD "unknown") ++ "\":" ++ e],
     .ret⟩

/-- Behaviour of the operating system during one probe/wait interaction:
`kill0 pid` is the outcome of `os.kill(pid, 0)` (`none` means the call
succeeded, `some errno` means it raised `OSError` with that errno), and
`waitpidRes pid` likewise records the outcome of `os.waitpid(pid, _)`. -/
structure OSEnv where
  kill0 : Int → Option Nat
  waitpidRes : Int → Option Nat

/-- Value of `errno.ESRCH` (no such process). -/
def ESRCH : Nat := 3

/-- Embedding of `pid_exists(pid)`: `os.kill(pid, 0)` succeeding means the
process exists; an `OSError` with errno `ESRCH` means it does not; any other
`OSError` is re-raised. -/
def pid_exists (env : OSEnv) (pid : Int) : Except Nat Bool :=
  match env.kill0 pid with
  | Option.none => .ok true
  | Option.some e => if e = ESRCH then .ok false else .error e

/-- Embedding of `check_and_waitpid(pid, status)`: probe the pid (errors of the
probe propagate), then call `os.waitpid(pid, status)` under a bare
`except OSError: pass`, which swallows every `OSError` the wait raises. -/
def check_and_waitpid (env : OSEnv) (pid : Int) (status : Nat) : Except Nat Unit :=
  match pid_exists env pid with
  | .error e => .error e
  | .ok false => .ok ()
  | .ok true =>
    match env.waitpidRes pid with
    | Option.none => .ok ()
    | Option.some _ => .ok ()

/-- Action taken by `waitpid_in_thread(pid)`: either a daemon thread running
`check_and_waitpid(pid, 0)` was started, or nothing happened at all. -/
inductive ReapAction where
  | started : Int → Nat → ReapAction
  | nothing : ReapAction
  deriving DecidableEq

/-- Embedding of `waitpid_in_thread(pid)`: probe the pid (probe errors
propagate to the caller); when it exists, start the background reaper thread
with arguments `(pid, 0)`; when it does not, do nothing and return. -/
def waitpid_in_thread (env : OSEnv) (pid : Int) : Except Nat ReapAction :=
  match pid_exists env pid with
  | .error e => .error e
  | .ok true => .ok (.started pid 0)
  | .ok false => .ok .nothing

/-! ### Helper lemmas -/

lemma addExceptFd_pyNone (acc : Except String (List Int)) :
    addExceptFd acc FdLike.pyNone = acc := by
  cases acc <;> rfl

lemma foldl_addExceptFd_error (fds : List FdLike) (msg : String) :
    fds.foldl addExceptFd (.error msg) = .error msg := by
  induction fds with
  | nil => rfl
  | cons f fds ih => simpa [List.foldl_cons, addExceptFd] using ih

lemma foldl_addExceptFd_filter_pyNone (fds : List FdLike)
    (acc : Except String (List Int)) :
    fds.foldl addExceptFd acc =
      (fds.filter (fun fd => fd ≠ FdLike.pyNone)).foldl addExceptFd acc := by
  induction fds generalizing acc with
  | nil => rfl
  | cons f fds ih =>
    rw [List.foldl_cons]
    by_cases hf : f = FdLike.pyNone
    · subst hf
      have hfil : (FdLike.pyNone :: fds).filter (fun fd => fd ≠ FdLike.pyNone) =
          fds.filter (fun fd => fd ≠ FdLike.pyNone) := by
        simp [List.filter_cons]
      rw [addExceptFd_pyNone, hfil]
      exact ih acc
    · have hfil : (f :: fds).filter (fun fd => fd ≠ FdLike.pyNone) =
          f :: fds.filter (fun fd => fd ≠ FdLike.pyNone) := by
        simp [List.filter_cons, hf]
      rw [hfil, List.foldl_cons]
      exact ih (addExceptFd acc f)

lemma close_all_fds_some (fds : List FdLike) :
    close_all_fds (Option.some fds) =
      match fds.foldl addExceptFd (.ok [1, 2]) with
      | .error msg => .error msg
      | .ok l => .ok (fileno_ranges l) := rfl

lemma foldl_addExceptFd_noFileno (fds : List FdLike) (r : String) :
    ∀ acc, FdLike.noFileno r ∈ fds →
      ∃ msg, fds.foldl addExceptFd acc = .error msg := by
  induction fds with
  | nil => intro acc h; exact absurd h (List.not_mem_nil _)
  | cons f fds ih =>
    intro acc h
    rcases List.mem_cons.mp h with h1 | h2
    · cases acc with
      | error msg =>
        exact ⟨msg, by
          rw [List.foldl_cons]
          simpa [addExceptFd] using foldl_addExceptFd_error fds msg⟩
      | ok l =>
        subst h1
        exact ⟨r ++ " must be an int or have a fileno method", by
          rw [List.foldl_cons]
          exact foldl_addExceptFd_error fds _⟩
    · exact ih (addExceptFd acc f) h2

/-! ### Theorems for the worker wrapper (C1, C8) -/

/-- C1: at the failing input — a work unit named "work" raising an exception
"boom" — the wrapper writes the diagnostic naming the work unit (or "unknown"
when the callable has no name) to the child's stderr, but then leaves by a
plain `return` back into the multiprocessing machinery rather than by a
failure `os._exit`; the multiprocessing bootstrap treats a returned target as
success, so the child's exit status is 0, not non-zero as the claim states. -/
theorem process_wrapper_exception_returns :
    process_wrapper (Option.some "work") (RunResult.exc "boom") =
      ⟨["Traceback (most recent call last): boom",
        "Error in wrapped process \"work\":boom"], WrapperExit.ret⟩ ∧
    (process_wrapper Option.none (RunResult.exc "boom")).exit = WrapperExit.ret ∧
    (process_wrapper Option.none (RunResult.exc "boom")).stderr =
      ["Traceback (most recent call last): boom",
       "Error in wrapped process \"unknown\":boom"] :=
  ⟨rfl, rfl, rfl⟩

/-- C8: a worker interrupted by `KeyboardInterrupt` behaves exactly as on
normal completion: the handler is `pass`, no failure diagnostic is written,
and control reaches `os._exit(os.EX_OK)`, i.e. the child exits with status 0. -/
theorem process_wrapper_keyboard_interrupt_clean (name : Option String) :
    process_wrapper name RunResult.keyboardInterrupt = process_wrapper name RunResult.ok ∧
    process_wrapper name RunResult.keyboardInterrupt = ⟨[], WrapperExit.osExit 0⟩ :=
  ⟨rfl, rfl⟩

/-- Witness for C8 at a concrete worker name. -/
theorem process_wrapper_keyboard_interrupt_clean_witness :
    process_wrapper (Option.some "put_bundle") RunResult.keyboardInterrupt =
      process_wrapper (Option.some "put_bundle") RunResult.ok ∧
    process_wrapper (Option.some "put_bundle") RunResult.keyboardInterrupt =
      ⟨[], WrapperExit.osExit 0⟩ :=
  process_wrapper_keyboard_interrupt_clean (Option.some "put_bundle")

/-! ### Theorems for the descriptor fence (C2, C4, C10) -/

/-- C2: with no caller-supplied descriptors the fence computes the ranges
`[(0, 0), (3, 1024)]`, and because `os.closerange` excludes its upper bound the
fence closes neither descriptor 0 nor descriptor 1024 — both of which lie in
`[0, 1024]` and are not preserved, so the claim requires them to be closed.
Descriptor 3 is closed, and descriptors 1 and 2 indeed survive. -/
theorem close_all_fds_misses_gap_tops :
    close_all_fds Option.none = .ok [(0, 0), (3, 1024)] ∧
    closedByFence [(0, 0), (3, 1024)] 0 = false ∧
    closedByFence [(0, 0), (3, 1024)] 1024 = false ∧
    closedByFence [(0, 0), (3, 1024)] 3 = true ∧
    closedByFence [(0, 0), (3, 1024)] 1 = false ∧
    closedByFence [(0, 0), (3, 1024)] 2 = false :=
  ⟨rfl, rfl, rfl, rfl, rfl, rfl⟩

/-- C4 counterexample: a preserved set containing Python `None` — an element
that is neither an integer nor exposes a descriptor number — does not make the
fence fail: the call succeeds and computes ranges, contradicting the claim that
every such element causes an `InvalidDescriptorRef` failure. -/
theorem close_all_fds_pyNone_not_rejected :
    close_all_fds (Option.some [FdLike.pyNone]) = .ok [(0, 0), (3, 1024)] :=
  rfl

/-- C4 (amended): every preserved-set element other than `None` that is neither
an integer nor exposes a descriptor number makes the whole fence call fail with
`ValueError` during normalization, before any range is computed and before any
descriptor is closed. -/
theorem close_all_fds_invalid_ref_fails (fds : List FdLike) (r : String)
    (h : FdLike.noFileno r ∈ fds) :
    ∃ msg, close_all_fds (Option.some fds) = .error msg := by
  obtain ⟨msg, hmsg⟩ := foldl_addExceptFd_noFileno fds r (.ok [1, 2]) h
  exact ⟨msg, by rw [close_all_fds_some, hmsg]⟩

/-- Witness for the amended C4 at a concrete invalid element. -/
theorem close_all_fds_invalid_ref_fails_witness :
    ∃ msg, close_all_fds (Option.some [FdLike.noFileno "<object object>"]) =
      .error msg :=
  close_all_fds_invalid_ref_fails [FdLike.noFileno "<object object>"]
    "<object object>" (List.mem_cons_self _ _)

/-- C10: the fence silently skips every `None` element of the preserved set —
the computed result is identical to the one for the set with all `None`
elements removed, and in particular no `ValueError` is raised for them. -/
theorem close_all_fds_skips_none (fds : List FdLike) :
    close_all_fds (Option.some fds) =
      close_all_fds (Option.some (fds.filter (fun fd => fd ≠ FdLike.pyNone))) := by
  rw [close_all_fds_some, close_all_fds_some,
    ← foldl_addExceptFd_filter_pyNone fds (Except.ok [1, 2])]

/-- Witness for C10 at a concrete `None`-containing preserved set. -/
theorem close_all_fds_skips_none_witness :
    close_all_fds (Option.some [FdLike.pyNone, FdLike.pyInt 5]) =
      close_all_fds (Option.some
        ([FdLike.pyNone, FdLike.pyInt 5].filter (fun fd => fd ≠ FdLike.pyNone))) :=
  close_all_fds_skips_none [FdLike.pyNone, FdLike.pyInt 5]

/-! ### Theorems for the liveness probe and reaper (C3, C6, C7) -/

/-- C6: the liveness probe returns `false` exactly when `os.kill(pid, 0)`
raised `OSError` with errno `ESRCH`, returns `true` when the signal succeeded,
and re-raises any other errno (such as `EPERM`) as a distinct error. -/
theorem pid_exists_spec (env : OSEnv) (pid : Int) :
    (pid_exists env pid = Except.ok false ↔ env.kill0 pid = Option.some ESRCH) ∧
    (env.kill0 pid = Option.none → pid_exists env pid = Except.ok true) ∧
    (∀ e : Nat, env.kill0 pid = Option.some e → e ≠ ESRCH →
      pid_exists env pid = Except.error e) := by
  unfold pid_exists
  cases hk : env.kill0 pid with
  | none => simp
  | some e' =>
    by_cases he : e' = ESRCH
    · subst he; simp
    · simp [he]

/-- Witness for C6 on a concrete environment where the kill probe reports
`ESRCH`. -/
theorem pid_exists_spec_witness :
    pid_exists ⟨fun _ => Option.some ESRCH, fun _ => Option.none⟩ 7 =
      Except.ok false :=
  (pid_exists_spec ⟨fun _ => Option.some ESRCH, fun _ => Option.none⟩ 7).1.mpr rfl

/-- C3 counterexample: when the target is alive and `os.waitpid` raises
`OSError` with errno `EPERM = 1` — a permission error, not a vanished-process
error — `check_and_waitpid` still swallows it and completes without error,
contradicting the claim that only vanished-process wait errors are swallowed. -/
theorem check_and_waitpid_swallows_eperm :
    check_and_waitpid ⟨fun _ => Option.none, fun _ => Option.some 1⟩ 5 0 =
      Except.ok () ∧ (1 : Nat) ≠ ESRCH :=
  ⟨rfl, by decide⟩

/-- C3 (amended): the bare `except OSError: pass` around the wait swallows every
`OSError` the wait raises, whatever its cause — whenever the initial probe
succeeds the background task finishes without error; only a probe error (an
errno other than `ESRCH` from `os.kill`) propagates out of the task. -/
theorem check_and_waitpid_spec (env : OSEnv) (pid : Int) (status : Nat) :
    (∀ b : Bool, pid_exists env pid = Except.ok b →
      check_and_waitpid env pid status = Except.ok ()) ∧
    (∀ e : Nat, pid_exists env pid = Except.error e →
      check_and_waitpid env pid status = Except.error e) := by
  unfold check_and_waitpid
  cases hp : pid_exists env pid with
  | error e => simp
  | ok b =>
    cases b with
    | false => simp
    | true => cases hw : env.waitpidRes pid <;> simp

/-- Witness for the amended C3 on a concrete environment whose wait raises
errno 13 (`EACCES`). -/
theorem check_and_waitpid_spec_witness :
    check_and_waitpid ⟨fun _ => Option.none, fun _ => Option.some 13⟩ 9 0 =
      Except.ok () :=
  (check_and_waitpid_spec ⟨fun _ => Option.none, fun _ => Option.some 13⟩ 9 0).1
    true rfl

/-- C7: when the liveness probe reports that the pid does not exist,
`waitpid_in_thread` starts no background thread and returns without error. -/
theorem waitpid_in_thread_dead_pid_noop (env : OSEnv) (pid : Int)
    (h : pid_exists env pid = Except.ok false) :
    waitpid_in_thread env pid = Except.ok ReapAction.nothing := by
  unfold waitpid_in_thread
  rw [h]

/-- Witness for C7 on a concrete environment where the probe reports `ESRCH`. -/
theorem waitpid_in_thread_dead_pid_noop_witness :
    waitpid_in_thread ⟨fun _ => Option.some ESRCH, fun _ => Option.none⟩ 11 =
      Except.ok ReapAction.nothing :=
  waitpid_in_thread_dead_pid_noop
    ⟨fun _ => Option.some ESRCH, fun _ => Option.none⟩ 11 rfl

/-! ### Range-list invariant of the fence (C5) -/

lemma inRanges_append (l₁ l₂ : List (Int × Int)) (fd : Int) :
    inRanges (l₁ ++ l₂) fd ↔ inRanges l₁ fd ∨ inRanges l₂ fd := by
  unfold inRanges
  constructor
  · rintro ⟨r, hr, h⟩
    rcases List.mem_append.mp hr with h' | h'
    · exact Or.inl ⟨r, h', h⟩
    · exact Or.inr ⟨r, h', h⟩
  · rintro (⟨r, hr, h⟩ | ⟨r, hr, h⟩)
    · exact ⟨r, List.mem_append_left _ hr, h⟩
    · exact ⟨r, List.mem_append_right _ hr, h⟩

lemma inRanges_singleton (a b fd : Int) :
    inRanges [(a, b)] fd ↔ (a ≤ fd ∧ fd ≤ b) := by
  unfold inRanges
  constructor
  · rintro ⟨r, hr, h⟩
    rcases List.mem_singleton.mp hr with rfl
    exact h
  · intro h
    exact ⟨(a, b), List.mem_singleton_self _, h⟩

lemma inRanges_nil (fd : Int) : ¬ inRanges [] fd := by
  rintro ⟨r, hr, _⟩
  exact List.not_mem_nil r hr

lemma rangeLoop_le : ∀ (rest : List Int) (next : Int) (acc : List (Int × Int)),
    next ≤ (rangeLoop rest next acc).2
  | [], next, _ => le_refl next
  | e :: rest, next, acc => by
    simp only [rangeLoop]
    exact le_trans (le_max_left _ _) (rangeLoop_le rest _ _)

lemma rangeLoop_mem_lt : ∀ (rest : List Int) (next : Int) (acc : List (Int × Int)),
    ∀ x ∈ rest, x < (rangeLoop rest next acc).2
  | [], _, _ => by intro x hx; exact absurd hx (List.not_mem_nil x)
  | e :: rest, next, acc => by
    intro x hx
    simp only [rangeLoop]
    rcases List.mem_cons.mp hx with h | h
    · subst h
      exact lt_of_lt_of_le (lt_of_lt_of_le (by omega) (le_max_right next (x + 1)))
        (rangeLoop_le rest _ _)
    · exact rangeLoop_mem_lt rest _ _ x h

lemma rangeLoop_le_bound :
    ∀ (rest : List Int) (next : Int) (acc : List (Int × Int)) (B : Int),
      next ≤ B → (∀ x ∈ rest, x + 1 ≤ B) → (rangeLoop rest next acc).2 ≤ B
  | [], _, _, _, h, _ => h
  | e :: rest, next, acc, B, h, hx => by
    simp only [rangeLoop]
    exact rangeLoop_le_bound rest _ _ B
      (max_le h (hx e (List.mem_cons_self e rest)))
      (fun x hm => hx x (List.mem_cons_of_mem e hm))

lemma rangeLoop_ranges_lt :
    ∀ (rest : List Int) (next : Int) (acc : List (Int × Int)),
      (∀ r ∈ acc, r.2 < next) →
      ∀ r ∈ (rangeLoop rest next acc).1, r.2 < (rangeLoop rest next acc).2
  | [], _, _, hacc => hacc
  | e :: rest, next, acc, hacc => by
    simp only [rangeLoop]
    apply rangeLoop_ranges_lt rest _ _
    intro r hr
    by_cases hgt : e > next
    · rw [if_pos hgt] at hr
      rcases List.mem_append.mp hr with h | h
      · exact lt_of_lt_of_le (hacc r h) (le_max_left _ _)
      · rcases List.mem_singleton.mp h with rfl
        exact lt_of_lt_of_le (by omega : (e - 1 : Int) < e + 1) (le_max_right _ _)
    · rw [if_neg hgt] at hr
      exact lt_of_lt_of_le (hacc r hr) (le_max_left _ _)

lemma rangeLoop_pairwise :
    ∀ (rest : List Int) (next : Int) (acc : List (Int × Int)),
      (∀ r ∈ acc, r.2 < next) →
      acc.Pairwise (fun r s : Int × Int => r.2 < s.1) →
      (rangeLoop rest next acc).1.Pairwise (fun r s : Int × Int => r.2 < s.1)
  | [], _, _, _, hp => hp
  | e :: rest, next, acc, hacc, hp => by
    simp only [rangeLoop]
    by_cases hgt : e > next
    · rw [if_pos hgt]
      apply rangeLoop_pairwise rest _ _
      · intro r hr
        rcases List.mem_append.mp hr with h | h
        · exact lt_of_lt_of_le (hacc r h) (le_max_left _ _)
        · rcases List.mem_singleton.mp h with rfl
          exact lt_of_lt_of_le (by omega : (e - 1 : Int) < e + 1) (le_max_right _ _)
      · refine List.pairwise_append.mpr ⟨hp, List.pairwise_singleton _ _, ?_⟩
        intro r hr s hs
        rcases List.mem_singleton.mp hs with rfl
        exact hacc r hr
    · rw [if_neg hgt]
      exact rangeLoop_pairwise rest _ _
        (fun r hr => lt_of_lt_of_le (hacc r hr) (le_max_left _ _)) hp

lemma rangeLoop_cover :
    ∀ (rest : List Int) (next : Int) (acc : List (Int × Int)),
      rest.Sorted (· ≤ ·) →
      ∀ fd : Int, inRanges (rangeLoop rest next acc).1 fd ↔
        (inRanges acc fd ∨
          (next ≤ fd ∧ fd < (rangeLoop rest next acc).2 ∧ fd ∉ rest))
  | [], next, acc, _, fd => by
    simp only [rangeLoop]
    constructor
    · exact Or.inl
    · rintro (h | ⟨h1, h2, _⟩)
      · exact h
      · omega
  | e :: rest, next, acc, hs, fd => by
    obtain ⟨hle, hs'⟩ := List.sorted_cons.mp hs
    simp only [rangeLoop]
    by_cases hgt : e > next
    · rw [if_pos hgt, rangeLoop_cover rest _ _ hs' fd, inRanges_append,
        inRanges_singleton]
      have hmax : max next (e + 1) = e + 1 := max_eq_right (by omega)
      rw [hmax]
      have hX := rangeLoop_le rest (e + 1) (acc ++ [(next, e - 1)])
      constructor
      · rintro ((hA | ⟨h1, h2⟩) | ⟨h1, h2, h3⟩)
        · exact Or.inl hA
        · refine Or.inr ⟨h1, by omega, ?_⟩
          intro hmem
          rcases List.mem_cons.mp hmem with h | h
          · omega
          · have := hle fd h
            omega
        · refine Or.inr ⟨by omega, h2, ?_⟩
          intro hmem
          rcases List.mem_cons.mp hmem with h | h
          · omega
          · exact h3 h
      · rintro (hA | ⟨h1, h2, h3⟩)
        · exact Or.inl (Or.inl hA)
        · have hne : fd ≠ e := fun h => h3 (by rw [h]; exact List.mem_cons_self e rest)
          have hnr : fd ∉ rest := fun h => h3 (List.mem_cons_of_mem e h)
          by_cases hcase : fd ≤ e - 1
          · exact Or.inl (Or.inr ⟨h1, hcase⟩)
          · exact Or.inr ⟨by omega, h2, hnr⟩
    · rw [if_neg hgt, rangeLoop_cover rest _ _ hs' fd]
      have he : e ≤ next := by omega
      constructor
      · rintro (hA | ⟨h1, h2, h3⟩)
        · exact Or.inl hA
        · have hn : next ≤ fd := le_trans (le_max_left _ _) h1
          have he1 : e + 1 ≤ fd := le_trans (le_max_right _ _) h1
          refine Or.inr ⟨hn, h2, ?_⟩
          intro hmem
          rcases List.mem_cons.mp hmem with h | h
          · omega
          · exact h3 h
      · rintro (hA | ⟨h1, h2, h3⟩)
        · exact Or.inl hA
        · have hne : fd ≠ e := fun h => h3 (by rw [h]; exact List.mem_cons_self e rest)
          have hnr : fd ∉ rest := fun h => h3 (List.mem_cons_of_mem e h)
          exact Or.inr ⟨max_le h1 (by omega), h2, hnr⟩

lemma exceptFilenos_ok_shape :
    ∀ (fds : List FdLike) (acc l : List Int),
      fds.foldl addExceptFd (.ok acc) = .ok l → ∃ t, l = acc ++ t
  | [], acc, l, h => by
    injection h with h'
    exact ⟨[], by simp [← h']⟩
  | f :: fds, acc, l, h => by
    rw [List.foldl_cons] at h
    cases f with
    | pyNone =>
      obtain ⟨t, ht⟩ := exceptFilenos_ok_shape fds acc l h
      exact ⟨t, ht⟩
    | pyInt n =>
      obtain ⟨t, ht⟩ := exceptFilenos_ok_shape fds (acc ++ [n]) l h
      exact ⟨[n] ++ t, by rw [ht, List.append_assoc]⟩
    | withFileno n =>
      obtain ⟨t, ht⟩ := exceptFilenos_ok_shape fds (acc ++ [n]) l h
      exact ⟨[n] ++ t, by rw [ht, List.append_assoc]⟩
    | noFileno r =>
      rw [show addExceptFd (Except.ok acc) (FdLike.noFileno r) =
          Except.error (r ++ " must be an int or have a fileno method") from rfl,
        foldl_addExceptFd_error] at h
      exact absurd h (by simp)

/-- C5: for every preserved set whose normalization succeeds with all
descriptors in `[0, 1024]`, the normalized set contains 1 and 2, and the
computed range list is a list of closed intervals that is ascending and
pairwise disjoint (each interval ends strictly before the next begins) and
whose union with the normalized preserved set covers exactly `[0, 1024]`. -/
theorem fence_ranges_invariant (fds : List FdLike) (l : List Int)
    (hnorm : exceptFilenos (Option.some fds) = Except.ok l)
    (hvalid : ∀ e ∈ l, 0 ≤ e ∧ e ≤ 1024) :
    ((1 : Int) ∈ l ∧ (2 : Int) ∈ l) ∧
    (fileno_ranges l).Pairwise (fun r s : Int × Int => r.2 < s.1) ∧
    (∀ fd : Int, (inRanges (fileno_ranges l) fd ∨ fd ∈ l) ↔
      (0 ≤ fd ∧ fd ≤ 1024)) := by
  have hshape : ∃ t, l = [1, 2] ++ t := exceptFilenos_ok_shape fds [1, 2] l hnorm
  obtain ⟨t, rfl⟩ := hshape
  refine ⟨⟨by simp, by simp⟩, ?_, ?_⟩
  all_goals
    have hrw : fileno_ranges ([1, 2] ++ t) =
        (rangeLoop (List.insertionSort (· ≤ ·) ([1, 2] ++ t)) 0 []).1 ++
          [((rangeLoop (List.insertionSort (· ≤ ·) ([1, 2] ++ t)) 0 []).2, 1024)] := rfl
    set s := List.insertionSort (· ≤ ·) ([1, 2] ++ t) with hsdef
    have hsort : s.Sorted (· ≤ ·) := List.sorted_insertionSort _ _
    have hmem : ∀ x : Int, x ∈ s ↔ x ∈ [1, 2] ++ t :=
      fun x => (List.perm_insertionSort (· ≤ ·) ([1, 2] ++ t)).mem_iff
    have hlt : ∀ r ∈ (rangeLoop s 0 []).1, r.2 < (rangeLoop s 0 []).2 :=
      rangeLoop_ranges_lt s 0 [] (by intro r hr; exact absurd hr (List.not_mem_nil r))
  · rw [hrw]
    refine List.pairwise_append.mpr
      ⟨rangeLoop_pairwise s 0 []
          (by intro r hr; exact absurd hr (List.not_mem_nil r)) List.Pairwise.nil,
        List.pairwise_singleton _ _, ?_⟩
    intro r hr x hx
    rcases List.mem_singleton.mp hx with rfl
    exact hlt r hr
  · intro fd
    have h0 : (0 : Int) ≤ (rangeLoop s 0 []).2 := rangeLoop_le s 0 []
    have hub : (rangeLoop s 0 []).2 ≤ 1025 := by
      apply rangeLoop_le_bound s 0 [] 1025 (by omega)
      intro x hx
      have := hvalid x ((hmem x).mp hx)
      omega
    have hcov := rangeLoop_cover s 0 []
      hsort fd
    rw [hrw, inRanges_append, inRanges_singleton, hcov]
    constructor
    · rintro (((hnil | ⟨h1, h2, _⟩) | ⟨h1, h2⟩) | hmeml)
      · exact absurd hnil (inRanges_nil fd)
      · omega
      · omega
      · exact hvalid fd hmeml
    · rintro ⟨h1, h2⟩
      by_cases hmeml : fd ∈ [1, 2] ++ t
      · exact Or.inr hmeml
      · have hns : fd ∉ s := fun h => hmeml ((hmem fd).mp h)
        by_cases hfd : fd < (rangeLoop s 0 []).2
        · exact Or.inl (Or.inl (Or.inr ⟨h1, hfd, hns⟩))
        · exact Or.inl (Or.inr ⟨by omega, h2⟩)

/-- Witness for C5 at the concrete preserved set `{4}` (normalized to
`[1, 2, 4]`). -/
theorem fence_ranges_invariant_witness :
    (((1 : Int) ∈ ([1, 2, 4] : List Int) ∧ (2 : Int) ∈ ([1, 2, 4] : List Int)) ∧
      (fileno_ranges [1, 2, 4]).Pairwise (fun r s : Int × Int => r.2 < s.1) ∧
      (∀ fd : Int, (inRanges (fileno_ranges [1, 2, 4]) fd ∨
        fd ∈ ([1, 2, 4] : List Int)) ↔ (0 ≤ fd ∧ fd ≤ 1024))) :=
  fence_ranges_invariant [FdLike.pyInt 4] [1, 2, 4] rfl (by decide)

/-! ### Fingerprint parsing (C9) -/

lemma dropWhile_append_all {p : Char → Bool} (xs ys : List Char)
    (h : ∀ c ∈ xs, p c = true) :
    List.dropWhile p (xs ++ ys) = List.dropWhile p ys := by
  induction xs with
  | nil => rfl
  | cons x xs ih =>
    rw [List.cons_append, List.dropWhile_cons_of_pos (h x (List.mem_cons_self x xs))]
    exact ih (fun c hc => h c (List.mem_cons_of_mem x hc))

lemma stripChars_append_ws (xs ws : List Char)
    (h : ∀ c ∈ ws, isPySpace c = true) :
    stripChars (xs ++ ws) = stripChars xs := by
  unfold stripChars
  rw [List.reverse_append,
    dropWhile_append_all ws.reverse xs.reverse
      (fun c hc => h c (List.mem_reverse.mp hc))]

/-- C9: on the canonical `openssl` output `SHA1 Fingerprint=AA:BB:CC:DD`
followed by any trailing whitespace, the fingerprint parsing strips the
whitespace, takes the text after the last `'='`, removes the `':'` separators
and lowercases the result, yielding exactly `aabbccdd`. -/
theorem get_cert_fingerprint_canonical (ws : List Char)
    (h : ∀ c ∈ ws, isPySpace c = true) :
    parseFingerprint (("SHA1 Fingerprint=AA:BB:CC:DD").data ++ ws) =
      ("aabbccdd").data := by
  unfold parseFingerprint
  rw [stripChars_append_ws _ _ h]
  decide

/-- Witness for C9 with a concrete trailing newline, as `openssl` prints it. -/
theorem get_cert_fingerprint_canonical_witness :
    parseFingerprint (("SHA1 Fingerprint=AA:BB:CC:DD").data ++ ['\n']) =
      ("aabbccdd").data :=
  get_cert_fingerprint_canonical ['\n'] (by decide)

end EucaBundleUtil
